import Mathlib

/-!
Verification of the subtitle-assistant translation core: a shallow embedding
of the SRT parser, the progress store, the batch/overlap scheduler, the
multi-model pipeline and the Ollama client helpers, together with theorems
settling the frozen claims about them.

Conventions of the embedding:
* Python `timedelta` values are modelled as microsecond counts (`Int`;
  all durations arising from the SRT parser are nonnegative).
* Backend calls (HTTP requests to the translation models) are modelled as
  oracle functions passed in as parameters; an oracle returning `none`
  models the corresponding Python call raising an exception.
* Python exceptions of the embedded functions themselves are modelled with
  `Except`/`Option` return types.
-/

deriving instance DecidableEq for Except

set_option maxRecDepth 8000

namespace SubAssist

/-!
Python string primitives, implemented over `List Char` (and with explicit
fuel where the recursion is not structural) so that every definition reduces
inside the kernel on concrete inputs. Each mirrors the semantics of the
corresponding Python `str` method for the inputs arising in this code base.
-/

/-- One decimal digit character, `Char.ofNat (48 + n)`; callers pass `n ≤ 9`. -/
def digitCh (n : Nat) : Char := Char.ofNat (48 + n)

/-- Decimal digits of `n`, least significant first (`fuel ≥ 1` suffices up to
`10^fuel`). -/
def natToRevDigits : Nat → Nat → List Char
  | 0, _ => []
  | fuel + 1, n =>
    if n < 10 then [digitCh n] else digitCh (n % 10) :: natToRevDigits fuel (n / 10)

/-- Decimal rendering of a natural number (Python `str(n)` for `n ≥ 0`). -/
def natRepr (n : Nat) : String := String.mk (natToRevDigits (n + 1) n).reverse

/-- Decimal rendering of an integer (Python `str(i)`). -/
def intRepr (i : Int) : String :=
  if i < 0 then "-" ++ natRepr (-i).toNat else natRepr i.toNat

/-- The whitespace characters Python `str.strip()` removes (ASCII range). -/
def isPyWs (c : Char) : Bool :=
  c = ' ' ∨ c = '\t' ∨ c = '\n' ∨ c = '\r' ∨ c = '\x0b' ∨ c = '\x0c'

/-- Python `s.strip()`. -/
def pyStrip (s : String) : String :=
  String.mk ((s.toList.dropWhile isPyWs).reverse.dropWhile isPyWs).reverse

/-- Python `s[:n]`. -/
def pyTake (s : String) (n : Nat) : String := String.mk (s.toList.take n)

/-- Python `s[n:]`. -/
def pyDrop (s : String) (n : Nat) : String := String.mk (s.toList.drop n)

/-- Python `s[:-n]` (for `n ≤ len(s)`). -/
def pyDropRight (s : String) (n : Nat) : String :=
  String.mk (s.toList.take (s.toList.length - n))

/-- Python `s.startswith(pre)`. -/
def pyStartsWith (s pre : String) : Bool :=
  s.toList.take pre.toList.length == pre.toList

/-- Python `s.endswith(suf)`. -/
def pyEndsWith (s suf : String) : Bool :=
  s.toList.reverse.take suf.toList.length == suf.toList.reverse

/-- Python `s.lower()` (ASCII case mapping). -/
def pyLower (s : String) : String := String.mk (s.toList.map Char.toLower)

/-- Python `sep.join(parts)`. -/
def pyJoin (sep : String) (parts : List String) : String :=
  String.mk (List.intercalate sep.toList (parts.map String.toList))

/-- Splitting scanner for a nonempty separator; fuel ≥ input length suffices. -/
def splitSepGo (sep : List Char) : Nat → List Char → List Char → List (List Char)
  | _, acc, [] => [acc.reverse]
  | 0, acc, rest => [acc.reverse ++ rest]
  | fuel + 1, acc, c :: rest =>
    if (c :: rest).take sep.length == sep then
      acc.reverse :: splitSepGo sep fuel [] ((c :: rest).drop sep.length)
    else splitSepGo sep fuel (c :: acc) rest

/-- Python `s.split(sep)` for a nonempty separator. -/
def pySplit (s sep : String) : List String :=
  (splitSepGo sep.toList (s.toList.length + 1) [] s.toList).map String.mk

/-- Replacement scanner; fuel ≥ input length suffices. -/
def replaceGo (pat rep : List Char) : Nat → List Char → List Char
  | _, [] => []
  | 0, rest => rest
  | fuel + 1, c :: rest =>
    if (c :: rest).take pat.length == pat then
      rep ++ replaceGo pat rep fuel ((c :: rest).drop pat.length)
    else c :: replaceGo pat rep fuel rest

/-- Python `s.replace(pat, rep)` for a nonempty pattern. -/
def pyReplace (s pat rep : String) : String :=
  String.mk (replaceGo pat.toList rep.toList (s.toList.length + 1) s.toList)

/-- Numeric value of a digit character. -/
def digitVal (c : Char) : Nat := c.toNat - 48

/-- Value of a digit run. -/
def digitsToNat (ds : List Char) : Nat :=
  ds.foldl (fun a c => a * 10 + digitVal c) 0

/-- Python `int(s)`: surrounding whitespace, an optional sign, then a
nonempty digit run. -/
def pyToInt (s : String) : Option Int :=
  let body : List Char → Option Int := fun ds =>
    if ds ≠ [] ∧ ds.all Char.isDigit then some ((digitsToNat ds : Nat) : Int) else none
  match (pyStrip s).toList with
  | '-' :: ds => (body ds).map (fun n => -n)
  | '+' :: ds => body ds
  | ds => body ds

/-- Model of the Python 02d format spec: zero-pad to two digits, full digits when wider. -/
def pad2 (n : Nat) : String :=
  if n < 100 then String.mk [digitCh (n / 10), digitCh (n % 10)] else natRepr n

/-- Model of the Python 03d format spec: zero-pad to three digits, full digits when wider. -/
def pad3 (n : Nat) : String :=
  if n < 1000 then String.mk [digitCh (n / 100), digitCh (n / 10 % 10), digitCh (n % 10)]
  else natRepr n

/-- Model of `SubtitleEntry._clean_text` (srt_parser.py): normalize line breaks,
strip each line, drop blank lines. -/
def cleanText (text : String) : String :=
  if text = "" then ""
  else
    let t := pyReplace (pyReplace text "\r\n" "\n") "\r" "\n"
    let lines := (pySplit t "\n").map pyStrip
    pyJoin "\n" (lines.filter (fun l => l ≠ ""))

/-- Model of the `SubtitleEntry` dataclass (srt_parser.py). Times are
microsecond counts standing for Python `timedelta` values. -/
structure SubtitleEntry where
  index : Int
  start_time : Int
  end_time : Int
  text : String
  original_text : Option String := none
deriving Repr, DecidableEq

/-- Model of the `SubtitleEntry` constructor including `__post_init__`, which
cleans `text` and (when truthy) `original_text`. -/
def mkSubtitleEntry (index startTime endTime : Int) (text : String)
    (originalText : Option String) : SubtitleEntry :=
  { index := index, start_time := startTime, end_time := endTime,
    text := cleanText text,
    original_text :=
      match originalText with
      | some o => if o = "" then some o else some (cleanText o)
      | none => none }

/-- Model of `TranslationProgress._timedelta_to_str` (progress.py): SRT style
`HH:MM:SS,mmm` rendering of a (nonnegative) duration in microseconds. -/
def timedeltaToStr (us : Nat) : String :=
  let totalSeconds := us / 1000000
  let hours := totalSeconds / 3600
  let minutes := totalSeconds % 3600 / 60
  let seconds := totalSeconds % 60
  let milliseconds := us % 1000000 / 1000
  pad2 hours ++ ":" ++ pad2 minutes ++ ":" ++ pad2 seconds ++ "," ++ pad3 milliseconds

/-- Model of Python `s.ljust(6, "0")[:6]`. -/
def ljust6Take6 (s : String) : String :=
  pyTake (s ++ String.mk (List.replicate (6 - s.toList.length) (digitCh 0))) 6

/-- The body of `TranslationProgress._parse_timedelta` (progress.py) up to its
`except` clause: `none` models an exception inside the `try` block.
It expects the `H:MM:SS.mmm` shape produced by `str(timedelta)`. -/
def parseTimedeltaCore (s : String) : Option Int := do
  let parts := pySplit s ":"
  let p0 ← parts[0]?
  let p1 ← parts[1]?
  let p2 ← parts[2]?
  let hours ← pyToInt p0
  let minutes ← pyToInt p1
  let secParts := pySplit p2 "."
  let s0 ← secParts[0]?
  let seconds ← pyToInt s0
  let micro ← match secParts[1]? with
    | none => pure (0 : Int)
    | some s1 => pyToInt (ljust6Take6 s1)
  pure (((hours * 60 + minutes) * 60 + seconds) * 1000000 + micro)

/-- Model of `TranslationProgress._parse_timedelta`: on any parse failure the
`except` clause logs and returns `timedelta(0)`. -/
def parseTimedelta (s : String) : Int :=
  (parseTimedeltaCore s).getD 0

/-- Serialized form of one entry as written by `_entry_to_dict` (progress.py):
`start_time`/`end_time` become `timedeltaToStr` strings, other fields copied. -/
structure EntryDict where
  index : Int
  start_time : String
  end_time : String
  text : String
  original_text : Option String
deriving Repr, DecidableEq

/-- Model of `TranslationProgress._entry_to_dict` (progress.py). -/
def entryToDict (e : SubtitleEntry) : EntryDict :=
  { index := e.index,
    start_time := timedeltaToStr e.start_time.toNat,
    end_time := timedeltaToStr e.end_time.toNat,
    text := e.text,
    original_text := e.original_text }

/-- Model of the entry reconstruction inside `load_progress` (progress.py):
times are re-parsed with `_parse_timedelta`, `original_text` defaults to `""`
when the key is absent, and the `SubtitleEntry` constructor re-cleans. -/
def entryFromDict (d : EntryDict) : SubtitleEntry :=
  mkSubtitleEntry d.index (parseTimedelta d.start_time) (parseTimedelta d.end_time)
    d.text d.original_text

/-! ### Ollama client helpers (ollama_client.py) -/

/-- Model of `OllamaClient._clean_translation`: strip, remove one layer of
wrapping quotes, remove a leading `Translation:` marker. -/
def cleanTranslation (text : String) : String :=
  let t := pyStrip text
  let t :=
    if pyStartsWith t "\"" ∧ pyEndsWith t "\"" then pyDropRight (pyDrop t 1) 1
    else if pyStartsWith t "\x27" ∧ pyEndsWith t "\x27" then pyDropRight (pyDrop t 1) 1
    else t
  if pyStartsWith (pyLower t) "translation:" then pyStrip (pyDrop t 12) else t

/-- Model of `OllamaClient._parse_batch_translation`: purely position-based
recovery of `expectedCount` translations from the response lines; the `[n]`
marker of line `n-1` is stripped only when it matches that position, and
missing lines yield `""`. -/
def parseBatchTranslation (content : String) (expectedCount : Nat) : List String :=
  let lines := pySplit (pyStrip content) "\n"
  (List.range expectedCount).map fun i =>
    match lines[i]? with
    | some l =>
      let line := pyStrip l
      let marker := "[" ++ natRepr (i + 1) ++ "]"
      if pyStartsWith line marker then pyStrip (pyDrop line marker.toList.length) else line
    | none => ""

/-- Model of `OllamaClient.translate_batch`. The raw model response is an
oracle of the batch texts; `none` models the request raising. -/
def translateBatch (batchO : List String → Option String) (texts : List String) :
    Option (List String) :=
  if texts = [] then some []
  else (batchO texts).map fun raw =>
    (parseBatchTranslation raw texts.length).map cleanTranslation

/-- The loop of `OllamaClient.translate_with_fallback` as explicit state
passing on `config.model`. `avail` models membership in
`get_available_models()`, `retry` the outcome of `translate_with_retry`
under the given model (`none` = raised). Returns the result (`none` = the
final `ValueError`) together with the final value of `config.model`. -/
def fallbackLoop (avail : String → Bool) (retry : String → Option String) :
    List String → String → Option String × String
  | [], curModel => (none, curModel)
  | m :: rest, curModel =>
    if avail m = false then fallbackLoop avail retry rest curModel
    else
      let originalModel := curModel
      match retry m with
      | some r => (some r, originalModel)
      | none => fallbackLoop avail retry rest originalModel

/-- Model of `OllamaClient.translate_with_fallback`: tries
`[config.model] + fallback_models` in order. -/
def translateWithFallback (primaryModel : String) (fallbackModels : List String)
    (avail : String → Bool) (retry : String → Option String) :
    Option String × String :=
  fallbackLoop avail retry (primaryModel :: fallbackModels) primaryModel

/-! ### Multi-model batch response parsing (multi_model.py) -/

/-- Python dict assignment `m[k] = v` on an insertion-ordered association list. -/
def upsert (m : List (Int × String)) (k : Int) (v : String) : List (Int × String) :=
  match m with
  | [] => [(k, v)]
  | (k0, v0) :: rest => if k0 = k then (k0, v) :: rest else (k0, v0) :: upsert rest k v

/-- Python dict lookup `k in m` / `m[k]`. -/
def lookupMarker (m : List (Int × String)) (k : Int) : Option String :=
  match m with
  | [] => none
  | (k0, v0) :: rest => if k0 = k then some v0 else lookupMarker rest k

/-- One line of the first loop of `MultiModelOrchestrator._parse_batch_response`:
a `[n] text` marker line yields `(n, text)`; anything else is skipped. -/
def parseMarkerLine (line : String) : Option (Int × String) :=
  match line.toList with
  | [] => none
  | c :: rest =>
    if c = '[' ∧ (c :: rest).contains ']' then
      let indexStr := String.mk (rest.takeWhile (fun ch => ch ≠ ']'))
      let after := String.mk ((rest.dropWhile (fun ch => ch ≠ ']')).drop 1)
      match pyToInt indexStr with
      | some idx =>
        let translation := pyStrip after
        if translation ≠ "" then some (idx, translation) else none
      | none => none
    else none

/-- The `index_to_translation` dictionary built by the first loop of
`_parse_batch_response`. -/
def extractMarkers (response : String) : List (Int × String) :=
  (pySplit (pyStrip response) "\n").foldl
    (fun m l =>
      let line := pyStrip l
      if line = "" then m
      else
        match parseMarkerLine line with
        | some (k, v) => upsert m k v
        | none => m)
    []

/-- Which branch of the second loop of `_parse_batch_response` fires for one
entry; `position` and `missing` are the two warning-logging fallback paths. -/
inductive MatchMethod where
  | marker
  | position
  | missing
deriving Repr, DecidableEq

/-- The body of the second loop of `_parse_batch_response` for the entry at
0-based position `i`: marker match by `entry.index` first, then
position-based lookup of `i+1`, then the original text. -/
def matchEntry (m : List (Int × String)) (i : Nat) (e : SubtitleEntry) :
    String × MatchMethod :=
  match lookupMarker m e.index with
  | some t => (t, MatchMethod.marker)
  | none =>
    match lookupMarker m ((i : Int) + 1) with
    | some t => (t, MatchMethod.position)
    | none => (e.text, MatchMethod.missing)

/-- Model of `MultiModelOrchestrator._parse_batch_response`. -/
def parseBatchResponse (response : String) (batch : List SubtitleEntry) : List String :=
  batch.enum.map fun p => (matchEntry (extractMarkers response) p.1 p.2).1

/-- The matching path taken per entry by `_parse_batch_response` (determines
which log line the source emits). -/
def batchMatchMethods (response : String) (batch : List SubtitleEntry) : List MatchMethod :=
  batch.enum.map fun p => (matchEntry (extractMarkers response) p.1 p.2).2

/-! ### SRT parsing (srt_parser.py) -/

/-- Match two digits at the head of the character list (one two-digit group
of `SRTParser.time_pattern`, followed there by a mandatory separator). -/
def take2Digits : List Char → Option (Nat × List Char)
  | a :: b :: rest =>
    if a.isDigit ∧ b.isDigit then some (digitVal a * 10 + digitVal b, rest) else none
  | _ => none

/-- Match three digits at the head of the character list. -/
def take3Digits : List Char → Option (Nat × List Char)
  | a :: b :: c :: rest =>
    if a.isDigit ∧ b.isDigit ∧ c.isDigit then
      some (digitVal a * 100 + digitVal b * 10 + digitVal c, rest)
    else none
  | _ => none

/-- Match one literal character. -/
def expectChar (c : Char) : List Char → Option (List Char)
  | x :: rest => if x = c then some rest else none
  | [] => none

/-- Match one two-two-two-three-digit `HH:MM:SS,mmm` timestamp of
`SRTParser.time_pattern`, returning its four groups. -/
def takeTimestampGroups (cs : List Char) : Option ((Nat × Nat × Nat × Nat) × List Char) := do
  let (h, cs) ← take2Digits cs
  let cs ← expectChar ':' cs
  let (m, cs) ← take2Digits cs
  let cs ← expectChar ':' cs
  let (s, cs) ← take2Digits cs
  let cs ← expectChar ',' cs
  let (ms, cs) ← take3Digits cs
  pure ((h, m, s, ms), cs)

/-- Model of `SRTParser.time_pattern.match(line)` (a prefix match: trailing
characters are allowed): both timestamps around `\s*-->\s*`. -/
def timePatternMatch (line : String) : Option ((Nat × Nat × Nat × Nat) × (Nat × Nat × Nat × Nat)) := do
  let cs := line.toList
  let (g1, cs) ← takeTimestampGroups cs
  let cs := cs.dropWhile isPyWs
  let cs ← expectChar '-' cs
  let cs ← expectChar '-' cs
  let cs ← expectChar '>' cs
  let cs := cs.dropWhile isPyWs
  let (g2, _) ← takeTimestampGroups cs
  pure (g1, g2)

/-- Model of `SRTParser._parse_timestamp`: components to a duration in
microseconds (`timedelta(hours=.., minutes=.., seconds=.., milliseconds=..)`). -/
def parseTimestamp (g : Nat × Nat × Nat × Nat) : Int :=
  ((g.1 * 3600 + g.2.1 * 60 + g.2.2.1) * 1000 + g.2.2.2) * 1000

/-- Model of `SRTParser._parse_block`. `Except.error` models the raised
`ValueError`; `.ok none` models the empty-text `return None` path. Note the
source never compares the two parsed times. -/
def parseBlock (block : String) : Except String (Option SubtitleEntry) :=
  let lines := pySplit (pyStrip block) "\n"
  if lines.length < 3 then Except.error "insufficient lines"
  else
    let l0 := pyStrip (lines[0]?.getD "")
    let indexStr := if pyStartsWith l0 "\uFEFF" then pyDrop l0 1 else l0
    match pyToInt indexStr with
    | none => Except.error "invalid index"
    | some index =>
      match timePatternMatch (pyStrip (lines[1]?.getD "")) with
      | none => Except.error "invalid timestamp"
      | some (g1, g2) =>
        let startTime := parseTimestamp g1
        let endTime := parseTimestamp g2
        let text := pyStrip (pyJoin "\n" (lines.drop 2))
        if text = "" then Except.ok none
        else Except.ok (some (mkSubtitleEntry index startTime endTime text none))

/-- Index of the last newline in a character list, if any. -/
def lastNewlinePos (l : List Char) : Option Nat :=
  (l.enum.filter (fun p => p.2 = '\n')).getLast?.map Prod.fst

/-- Scanner for `re.split(r"\n\s*\n", content)`: a separator is a newline, a
greedy whitespace run, and the last newline inside that run (each step
consumes at least one character, so fuel ≥ input length suffices). -/
def splitBlocksGo : Nat → List Char → List Char → List String
  | _, acc, [] => [String.mk acc.reverse]
  | 0, acc, rest => [String.mk (acc.reverse ++ rest)]
  | fuel + 1, acc, c :: rest =>
    if c = '\n' then
      let wsRun := rest.takeWhile isPyWs
      match lastNewlinePos wsRun with
      | some k => String.mk acc.reverse :: splitBlocksGo fuel [] (rest.drop (k + 1))
      | none => splitBlocksGo fuel (c :: acc) rest
    else splitBlocksGo fuel (c :: acc) rest

/-- Model of `re.split(r"\n\s*\n", s)` in `SRTParser.parse_content`. -/
def splitBlocks (s : String) : List String :=
  splitBlocksGo (s.toList.length + 1) [] s.toList

/-- Model of `SRTParser.parse_content`: strip a BOM, split into blocks, skip
blank or invalid blocks (logged warnings), error when no entry survives. -/
def parseContent (content : String) : Except String (List SubtitleEntry) :=
  let c := if pyStartsWith content "\uFEFF" then pyDrop content 1 else content
  let blocks := splitBlocks (pyStrip c)
  let entries := blocks.foldl
    (fun acc block =>
      if pyStrip block = "" then acc
      else
        match parseBlock block with
        | Except.ok (some e) => acc ++ [e]
        | Except.ok none => acc
        | Except.error _ => acc)
    []
  if entries = [] then Except.error "No valid subtitle entries found"
  else Except.ok entries

/-! ### The batch/overlap scheduler (`SubtitleTranslator._translate_entries_batch`)

The function receives the (possibly resumed) tail of the entry list; the
`start_offset` parameter of the source only affects progress display and is
not modelled. Progress-store side effects are modelled separately. -/

/-- The slice of `Config` read by `_translate_entries_batch`. -/
structure BatchConfig where
  batchSize : Nat
  overlapSize : Nat
  reassessOverlaps : Bool
deriving Repr, DecidableEq

/-- One request issued to `translate_batch`: the cursor value, the computed
overlap window and the `SubtitleEntry.index` values sent. -/
structure BatchRequest where
  batchStart : Nat
  overlapStart : Nat
  batchEnd : Nat
  reqIndices : List Int
deriving Repr, DecidableEq

/-- Loop state of `_translate_entries_batch`: the `translated_entries`
accumulator, the `processed_indices` set (as a list of positions) and the
trace of issued batch requests. -/
structure BatchState where
  committed : List SubtitleEntry
  processed : List Nat
  requests : List BatchRequest
deriving Repr, DecidableEq

/-- The reassessment scan: find the first committed entry with the same
`SubtitleEntry.index`, overwrite it in place when the new translation
differs, and stop (`break`). -/
def reassessReplace (tEntry : SubtitleEntry) (tText : String) :
    List SubtitleEntry → List SubtitleEntry
  | [] => []
  | x :: xs =>
    if x.index = tEntry.index then
      if tText ≠ x.text then tEntry :: xs else x :: xs
    else x :: reassessReplace tEntry tText xs

/-- The result-processing loop of the success path: pairs of
`zip(full_batch, translated_texts)` with running absolute position `q`
(`entry_index = overlap_start + i`). Positions `< batchStart` are overlap
entries, the rest new entries. -/
def commitFold (cfg : BatchConfig) (batchStart : Nat) :
    List (SubtitleEntry × String) → Nat → BatchState → BatchState
  | [], _, st => st
  | (entry, translatedText) :: rest, q, st =>
    let translatedEntry :=
      mkSubtitleEntry entry.index entry.start_time entry.end_time translatedText
        (some entry.text)
    let st' :=
      if q < batchStart then
        if cfg.reassessOverlaps ∧ q ∈ st.processed then
          { st with committed := reassessReplace translatedEntry translatedText st.committed }
        else st
      else
        if q ∈ st.processed then st
        else
          { st with committed := st.committed ++ [translatedEntry],
                    processed := q :: st.processed }
    commitFold cfg batchStart rest (q + 1) st'

/-- The per-entry fallback loop of the failure path: only the new entries are
retried (`retryO q`, `none` modelling that `translate_with_retry` raised, in
which case the untranslated original entry is committed). -/
def fallbackFold (retryO : Nat → Option String) :
    List SubtitleEntry → Nat → BatchState → BatchState
  | [], _, st => st
  | entry :: rest, q, st =>
    let st' :=
      match retryO q with
      | some translatedText =>
        let translatedEntry :=
          mkSubtitleEntry entry.index entry.start_time entry.end_time translatedText
            (some entry.text)
        if q ∈ st.processed then st
        else
          { st with committed := st.committed ++ [translatedEntry],
                    processed := q :: st.processed }
      | none =>
        if q ∈ st.processed then st
        else
          { st with committed := st.committed ++ [entry],
                    processed := q :: st.processed }
    fallbackFold retryO rest (q + 1) st'

/-- The branch on the batch translation outcome inside one loop iteration:
success commits via the result-processing loop, failure falls back to
per-entry translation of the new entries only. -/
def processBatchCore (cfg : BatchConfig) (retryO : Nat → Option String)
    (batchStart overlapStart : Nat) (fullBatch newEntries : List SubtitleEntry)
    (res : Option (List String)) (st : BatchState) : BatchState :=
  match res with
  | some translatedTexts =>
    commitFold cfg batchStart (fullBatch.zip translatedTexts) overlapStart st
  | none => fallbackFold retryO newEntries batchStart st

/-- One iteration of the `while batch_start < total_entries` loop. -/
def processBatch (cfg : BatchConfig) (entries : List SubtitleEntry)
    (batchO : List String → Option String) (retryO : Nat → Option String)
    (st : BatchState) (batchStart : Nat) : BatchState :=
  let total := entries.length
  let batchEnd := min (batchStart + cfg.batchSize) total
  let overlapStart := if batchStart > 0 then batchStart - cfg.overlapSize else batchStart
  let fullBatch := (entries.drop overlapStart).take (batchEnd - overlapStart)
  let newEntries := (entries.drop batchStart).take (batchEnd - batchStart)
  let batchTexts := fullBatch.map (fun e => e.text)
  let st :=
    { st with requests := st.requests ++
        [{ batchStart := batchStart, overlapStart := overlapStart, batchEnd := batchEnd,
           reqIndices := fullBatch.map (fun e => e.index) }] }
  processBatchCore cfg retryO batchStart overlapStart fullBatch newEntries
    (translateBatch batchO batchTexts) st

/-- The scheduler loop, advancing the cursor to `batch_end`. A zero
`batchSize` would loop forever in the source; the model returns the current
state in that (configuration-validation-excluded) case. -/
def runBatches (cfg : BatchConfig) (entries : List SubtitleEntry)
    (batchO : List String → Option String) (retryO : Nat → Option String) :
    Nat → BatchState → Nat → BatchState
  | 0, st, _ => st
  | fuel + 1, st, batchStart =>
    if batchStart < entries.length ∧ 0 < cfg.batchSize then
      runBatches cfg entries batchO retryO fuel
        (processBatch cfg entries batchO retryO st batchStart)
        (min (batchStart + cfg.batchSize) entries.length)
    else st

/-- Model of `SubtitleTranslator._translate_entries_batch` (every loop
iteration advances the cursor by at least one when `batchSize ≥ 1`, so fuel
`entries.length + 1` always suffices). -/
def translateEntriesBatch (cfg : BatchConfig) (entries : List SubtitleEntry)
    (batchO : List String → Option String) (retryO : Nat → Option String) : BatchState :=
  runBatches cfg entries batchO retryO (entries.length + 1) ⟨[], [], []⟩ 0

/-! ### Line-by-line translation (`SubtitleTranslator._translate_entries_line_by_line`) -/

/-- The per-entry loop with running position `i`. `retryO i` models
`translate_with_retry` for the entry at position `i`, `fbO i` the subsequent
`translate_with_fallback`; `none` models a raised exception. The second
component counts `progress.add_translated_entry` calls. -/
def lineByLineGo (retryO fbO : Nat → Option String) :
    List SubtitleEntry → Nat → List SubtitleEntry × Nat
  | [], _ => ([], 0)
  | entry :: rest, i =>
    let outEntry :=
      match retryO i with
      | some t =>
        mkSubtitleEntry entry.index entry.start_time entry.end_time t (some entry.text)
      | none =>
        match fbO i with
        | some t =>
          mkSubtitleEntry entry.index entry.start_time entry.end_time t (some entry.text)
        | none => entry
    let res := lineByLineGo retryO fbO rest (i + 1)
    (outEntry :: res.1, res.2 + 1)

/-- Model of `SubtitleTranslator._translate_entries_line_by_line` (single-model
path; `start_offset` only affects display). -/
def translateLineByLine (retryO fbO : Nat → Option String)
    (entries : List SubtitleEntry) : List SubtitleEntry × Nat :=
  lineByLineGo retryO fbO entries 0

/-! ### Multi-model pipeline orchestration (`MultiModelOrchestrator.translate_with_multimodel`)

Confidence scores are Python floats holding the constant values `0.9`, `0.5`,
`0.2` and validator-reported scores; they are modelled as rationals. The
`quality_metrics`/`model_consensus` companions of `TranslationResult` and the
per-record timestamps are not mentioned by any claim and are not modelled. -/

/-- The pipeline toggles read from `config.multi_model`. -/
structure PipelineFlags where
  enabled : Bool
  runContextAnalysis : Bool
  runTranslation : Bool
  runValidation : Bool
  runDialogueRefinement : Bool
  skipValidationForHighConfidence : Bool
deriving Repr, DecidableEq

/-- Model of the `TranslationResult` dataclass (text + confidence score). -/
structure TranslationResult where
  text : String
  confidence : ℚ
deriving Repr, DecidableEq

/-- The `step1_context` sub-record of one entry in the result file. -/
inductive Step1Rec where
  | analyzed
  | skippedDisabled
deriving Repr, DecidableEq

/-- A `step2`/`step3`/`step4` sub-record: either skipped (with the recorded
reason, the plain `skipped: True` of step 2 carrying none) or executed with
the stored text and confidence. -/
inductive StepRes where
  | skip (reason : Option String)
  | done (text : String) (confidence : ℚ)
deriving Repr, DecidableEq

/-- One `entry_%04d` record of the durable result file. `none` sub-records
model keys the source never writes for that entry. -/
structure EntryRecord where
  index : Int
  originalText : String
  step1 : Option Step1Rec
  step2 : Option StepRes
  step3 : Option StepRes
  step4 : Option StepRes
  final : Option (String × ℚ)
deriving Repr, DecidableEq

/-- Backend oracles of the pipeline: per-entry translation, validator outcome
(`none` = the query raised; `some none` = unparsable JSON, degraded to the
neutral defaults; `some (some (confidence, grammar, naturalness, suggestion))`
= parsed), dialogue refinement, and the two fast-batch-mode calls. -/
structure PipelineOracles where
  translateO : Int → Option String
  validateO : Int → Option (Option (ℚ × ℚ × ℚ × Option String))
  dialogueO : Int → Option String
  fastBatchO : Nat → Option String
  fastIndivO : Int → Option String

/-- Model of `MultiModelOrchestrator._translate_with_context`: on success the
stripped response with confidence `0.9` (or `0.5` when empty or unchanged),
on failure the original text with confidence `0.2`. -/
def translateWithContext (o : PipelineOracles) (e : SubtitleEntry) : TranslationResult :=
  match o.translateO e.index with
  | some response =>
    let translatedText := pyStrip response
    { text := translatedText,
      confidence := if translatedText ≠ "" ∧ translatedText ≠ e.text then 9/10 else 1/2 }
  | none => { text := e.text, confidence := 1/5 }

/-- Model of `MultiModelOrchestrator._validate_translation`: substitute a
nonempty suggestion when confidence is below `0.7`; degraded defaults when
the response is unparsable; the input result unchanged when the query raised. -/
def validateTranslation (o : PipelineOracles) (e : SubtitleEntry)
    (tr : TranslationResult) : TranslationResult :=
  match o.validateO e.index with
  | some parsed =>
    let cs :=
      match parsed with
      | some (c, _, _, sug) => (c, sug)
      | none => ((1/2 : ℚ), none)
    let finalText :=
      match cs.2 with
      | some s => if s ≠ "" ∧ cs.1 < 7/10 then s else tr.text
      | none => tr.text
    { text := finalText, confidence := cs.1 }
  | none => tr

/-- Model of `MultiModelOrchestrator._refine_dialogue`: use the stripped
response when nonempty and different, otherwise pass the input through. -/
def refineDialogue (o : PipelineOracles) (e : SubtitleEntry)
    (tr : TranslationResult) : TranslationResult :=
  match o.dialogueO e.index with
  | some response =>
    let improved := pyStrip response
    if improved ≠ "" ∧ improved ≠ tr.text then
      { text := improved, confidence := tr.confidence }
    else tr
  | none => tr

/-- The body of the per-entry 4-stage loop of `translate_with_multimodel`:
returns the committed entry together with its result-file record. -/
def processEntry (flags : PipelineFlags) (o : PipelineOracles) (e : SubtitleEntry) :
    SubtitleEntry × EntryRecord :=
  let step1 : Step1Rec :=
    if flags.runContextAnalysis then Step1Rec.analyzed else Step1Rec.skippedDisabled
  let s2 :=
    if flags.runTranslation then
      let tr := translateWithContext o e
      (tr, StepRes.done tr.text tr.confidence)
    else
      (({ text := e.text, confidence := 1/2 } : TranslationResult), StepRes.skip none)
  let s3 :=
    if flags.runValidation = false then
      (s2.1, StepRes.skip (some "disabled"))
    else if flags.skipValidationForHighConfidence ∧ s2.1.confidence > 8/10 then
      (s2.1, StepRes.skip (some "high_confidence"))
    else
      let v := validateTranslation o e s2.1
      (v, StepRes.done v.text v.confidence)
  let s4 :=
    if flags.runDialogueRefinement = false then
      (s3.1, StepRes.skip (some "disabled"))
    else
      let d := refineDialogue o e s3.1
      (d, StepRes.done d.text d.confidence)
  let record : EntryRecord :=
    { index := e.index, originalText := e.text,
      step1 := some step1, step2 := some s2.2, step3 := some s3.2, step4 := some s4.2,
      final := some (s4.1.text, s4.1.confidence) }
  (mkSubtitleEntry e.index e.start_time e.end_time s4.1.text (some e.text), record)

/-- Chunking scanner (each step consumes at least one element for `n ≥ 1`). -/
def chunkListGo (n : Nat) : Nat → List α → List (List α)
  | _, [] => []
  | 0, l => [l]
  | fuel + 1, x :: xs => (x :: xs).take n :: chunkListGo n fuel (xs.drop (n - 1))

/-- Python `[l[i:i+n] for i in range(0, len(l), n)]` for `n ≥ 1`. -/
def chunkList (n : Nat) (l : List α) : List (List α) :=
  chunkListGo n (l.length + 1) l

/-- The record written for one entry in the fast-batch success branch:
`step2_translation` and `final_result` only, no step 1/3/4 keys. -/
def fastEntryRecord (e : SubtitleEntry) (translation : String) : EntryRecord :=
  { index := e.index, originalText := e.text,
    step1 := none, step2 := some (StepRes.done translation (9/10)),
    step3 := none, step4 := none,
    final := some (translation, 9/10) }

/-- One iteration of the fast-batch loop of `_translate_entries_batch_fast`:
on success the response is split with `_parse_batch_response` and records are
written; on failure each entry is retried individually (or kept as original)
and no record is written at all. -/
def fastProcessBatch (o : PipelineOracles) (batchNum : Nat)
    (batch : List SubtitleEntry) : List SubtitleEntry × List EntryRecord :=
  match o.fastBatchO batchNum with
  | some response =>
    let pairs := batch.zip (parseBatchResponse response batch)
    (pairs.map (fun p =>
       mkSubtitleEntry p.1.index p.1.start_time p.1.end_time p.2 (some p.1.text)),
     pairs.map (fun p => fastEntryRecord p.1 p.2))
  | none =>
    (batch.map (fun e =>
       match o.fastIndivO e.index with
       | some r => mkSubtitleEntry e.index e.start_time e.end_time (pyStrip r) (some e.text)
       | none => mkSubtitleEntry e.index e.start_time e.end_time e.text (some e.text)),
     [])

/-- Model of `MultiModelOrchestrator._translate_entries_batch_fast` (the
pipeline batch size field is absent from the settings dataclass, so the
`getattr` default 20 always applies; batches are numbered from 1). -/
def translateEntriesBatchFast (o : PipelineOracles) (entries : List SubtitleEntry) :
    List SubtitleEntry × List EntryRecord :=
  ((chunkList 20 entries).enum.map fun p => fastProcessBatch o (p.1 + 1) p.2).foldl
    (fun acc r => (acc.1 ++ r.1, acc.2 ++ r.2)) ([], [])

/-- Model of `MultiModelOrchestrator.translate_with_multimodel`: disabled →
input unchanged; translation-only configurations on more than 5 entries →
fast batch mode; otherwise the per-entry 4-stage loop. -/
def translateWithMultimodel (flags : PipelineFlags) (o : PipelineOracles)
    (entries : List SubtitleEntry) : List SubtitleEntry × List EntryRecord :=
  if flags.enabled = false then (entries, [])
  else
    let onlyTranslation := flags.runTranslation ∧ flags.runContextAnalysis = false ∧
      flags.runValidation = false ∧ flags.runDialogueRefinement = false
    if onlyTranslation ∧ entries.length > 5 then
      translateEntriesBatchFast o entries
    else
      let results := entries.map (processEntry flags o)
      (results.map Prod.fst, results.map Prod.snd)

/-! ### Progress persistence (progress.py)

`save_progress` serializes with `json.dump` and `load_progress` reads with
`json.load`; both are modelled over a concrete JSON value type and a
recursive-descent parser. The model renders compactly (`indent=2` whitespace
is JSON-insignificant) and parses the fragment `json.dump` emits for this
payload (objects, arrays, strings, integers, `null`, booleans). -/

/-- The two brace characters (`Char.ofNat` code points 123 and 125). -/
def lBrace : Char := Char.ofNat 123

/-- Closing brace character. -/
def rBrace : Char := Char.ofNat 125

/-- JSON values. -/
inductive JValue where
  | jnull
  | jbool (b : Bool)
  | jnum (n : Int)
  | jstr (s : String)
  | jarr (xs : List JValue)
  | jobj (fields : List (String × JValue))
deriving Repr

/-- Skip JSON insignificant whitespace. -/
def skipWs : List Char → List Char
  | c :: rest =>
    if c = ' ' ∨ c = '\n' ∨ c = '\t' ∨ c = '\r' then skipWs rest else c :: rest
  | [] => []

/-- Parse a JSON string body after the opening quote, handling the escapes
the serializer emits (fuel ≥ input length suffices). -/
def parseStringBody : Nat → List Char → Option (List Char × List Char)
  | _, [] => none
  | 0, _ => none
  | fuel + 1, c :: rest =>
    if c = '"' then some ([], rest)
    else if c = '\\' then
      match rest with
      | e :: rest2 =>
        let ec := if e = 'n' then '\n' else if e = 't' then '\t'
          else if e = 'r' then '\r' else e
        match parseStringBody fuel rest2 with
        | some (cs, rem) => some (ec :: cs, rem)
        | none => none
      | [] => none
    else
      match parseStringBody fuel rest with
      | some (cs, rem) => some (c :: cs, rem)
      | none => none

/-- Parse an integer JSON number (the only numeric shape the progress
serializer emits). -/
def parseNumber (cs : List Char) : Option (Int × List Char) :=
  match cs with
  | '-' :: rest =>
    let p := rest.span Char.isDigit
    if p.1 = [] then none else some (-(digitsToNat p.1 : Int), p.2)
  | _ =>
    let p := cs.span Char.isDigit
    if p.1 = [] then none else some ((digitsToNat p.1 : Int), p.2)

/-- Match a literal keyword tail. -/
def expectLit (lit : List Char) (cs : List Char) : Option (List Char) :=
  if cs.take lit.length = lit then some (cs.drop lit.length) else none

mutual

/-- Fuel-indexed JSON value parser (fuel bounds nesting depth). -/
def parseJVal : Nat → List Char → Option (JValue × List Char)
  | 0, _ => none
  | fuel + 1, cs =>
    match skipWs cs with
    | [] => none
    | c :: rest =>
      if c = '"' then
        (parseStringBody (rest.length + 1) rest).map fun p => (JValue.jstr (String.mk p.1), p.2)
      else if c = lBrace then
        match skipWs rest with
        | c2 :: rest2 =>
          if c2 = rBrace then some (JValue.jobj [], rest2)
          else parseMembers fuel (c2 :: rest2)
        | [] => none
      else if c = '[' then
        match skipWs rest with
        | c2 :: rest2 =>
          if c2 = ']' then some (JValue.jarr [], rest2)
          else parseElems fuel (c2 :: rest2)
        | [] => none
      else if c = 'n' then (expectLit ['u', 'l', 'l'] rest).map fun r => (JValue.jnull, r)
      else if c = 't' then (expectLit ['r', 'u', 'e'] rest).map fun r => (JValue.jbool true, r)
      else if c = 'f' then
        (expectLit ['a', 'l', 's', 'e'] rest).map fun r => (JValue.jbool false, r)
      else (parseNumber (c :: rest)).map fun p => (JValue.jnum p.1, p.2)

/-- Parse the members of a nonempty JSON object, including the closing brace. -/
def parseMembers : Nat → List Char → Option (JValue × List Char)
  | 0, _ => none
  | fuel + 1, cs =>
    match skipWs cs with
    | c :: rest =>
      if c = '"' then
        match parseStringBody (rest.length + 1) rest with
        | some (key, rem) =>
          match skipWs rem with
          | ':' :: rem2 =>
            match parseJVal fuel rem2 with
            | some (v, rem3) =>
              match skipWs rem3 with
              | ',' :: rem4 =>
                match parseMembers fuel rem4 with
                | some (JValue.jobj fs, rem5) =>
                  some (JValue.jobj ((String.mk key, v) :: fs), rem5)
                | _ => none
              | c5 :: rem5 =>
                if c5 = rBrace then some (JValue.jobj [(String.mk key, v)], rem5) else none
              | [] => none
            | none => none
          | _ => none
        | none => none
      else none
    | [] => none

/-- Parse the elements of a nonempty JSON array, including the closing bracket. -/
def parseElems : Nat → List Char → Option (JValue × List Char)
  | 0, _ => none
  | fuel + 1, cs =>
    match parseJVal fuel cs with
    | some (v, rem) =>
      match skipWs rem with
      | ',' :: rem2 =>
        match parseElems fuel rem2 with
        | some (JValue.jarr xs, rem3) => some (JValue.jarr (v :: xs), rem3)
        | _ => none
      | ']' :: rem2 => some (JValue.jarr [v], rem2)
      | _ => none
    | none => none

end

/-- Model of `json.load` on a document string: one value, nothing but
whitespace after it. -/
def jsonParse (s : String) : Option JValue :=
  match parseJVal (s.length + 1) s.toList with
  | some (v, rest) => if skipWs rest = [] then some v else none
  | none => none

/-- JSON string escaping for the characters the progress payload can contain. -/
def jsonEscape (s : String) : String :=
  String.mk (s.toList.foldr
    (fun c acc =>
      (if c = '"' then ['\\', '"']
       else if c = '\\' then ['\\', '\\']
       else if c = '\n' then ['\\', 'n']
       else if c = '\t' then ['\\', 't']
       else if c = '\r' then ['\\', 'r']
       else [c]) ++ acc)
    [])

/-- A JSON string literal. -/
def jstrLit (s : String) : String := "\"" ++ jsonEscape s ++ "\""

/-- Render one serialized entry dictionary. -/
def serializeEntryDict (d : EntryDict) : String :=
  String.mk [lBrace] ++
    jstrLit "index" ++ ": " ++ intRepr d.index ++ ", " ++
    jstrLit "start_time" ++ ": " ++ jstrLit d.start_time ++ ", " ++
    jstrLit "end_time" ++ ": " ++ jstrLit d.end_time ++ ", " ++
    jstrLit "text" ++ ": " ++ jstrLit d.text ++ ", " ++
    jstrLit "original_text" ++ ": " ++
      (match d.original_text with
       | none => "null"
       | some s => jstrLit s) ++
  String.mk [rBrace]

/-- In-memory state serialized by `save_progress` (the fields of the
`progress_data` dictionary; `timestamp`/`start_time` are the
`datetime.isoformat()` strings). -/
structure ProgressState where
  inputFile : String
  outputFile : String
  currentIndex : Int
  totalEntries : Int
  translatedEntries : List SubtitleEntry
  timestamp : String
  startTime : String
deriving Repr, DecidableEq

/-- The document text `json.dump` writes for `progress_data` (without the
optional `context_analysis` key), fields in insertion order. -/
def serializeProgress (st : ProgressState) : String :=
  String.mk [lBrace] ++
    jstrLit "input_file" ++ ": " ++ jstrLit st.inputFile ++ ", " ++
    jstrLit "output_file" ++ ": " ++ jstrLit st.outputFile ++ ", " ++
    jstrLit "current_index" ++ ": " ++ intRepr st.currentIndex ++ ", " ++
    jstrLit "total_entries" ++ ": " ++ intRepr st.totalEntries ++ ", " ++
    jstrLit "translated_entries" ++ ": [" ++
      pyJoin ", "
        (st.translatedEntries.map fun e => serializeEntryDict (entryToDict e)) ++ "], " ++
    jstrLit "timestamp" ++ ": " ++ jstrLit st.timestamp ++ ", " ++
    jstrLit "start_time" ++ ": " ++ jstrLit st.startTime ++
  String.mk [rBrace]

/-- The two files `save_progress` can touch: the progress file itself and (in
the spec's atomic scheme) a temporary sibling. `none` = file absent. -/
structure FS where
  target : Option String
  temp : Option String
deriving Repr, DecidableEq

/-- File operations at the granularity relevant for crash analysis: opening
with mode `w` truncates, writing appends data, rename replaces the target. -/
inductive FileOp where
  | truncateTarget
  | writeTarget (data : String)
  | truncateTemp
  | writeTemp (data : String)
  | renameTempTarget
deriving Repr, DecidableEq

/-- Effect of one completed file operation. -/
def applyOp : FileOp → FS → FS
  | FileOp.truncateTarget, fs => { fs with target := some "" }
  | FileOp.writeTarget d, fs => { fs with target := some ((fs.target.getD "") ++ d) }
  | FileOp.truncateTemp, fs => { fs with temp := some "" }
  | FileOp.writeTemp d, fs => { fs with temp := some ((fs.temp.getD "") ++ d) }
  | FileOp.renameTempTarget, fs => { target := fs.temp, temp := none }

/-- States observable when a crash interrupts one operation part-way: a write
may have flushed any prefix of its data; truncate and rename are atomic. -/
def midWriteStates : FileOp → FS → List FS
  | FileOp.writeTarget d, fs =>
    (List.range (d.toList.length + 1)).map fun n => applyOp (FileOp.writeTarget (pyTake d n)) fs
  | FileOp.writeTemp d, fs =>
    (List.range (d.toList.length + 1)).map fun n => applyOp (FileOp.writeTemp (pyTake d n)) fs
  | _, _ => []

/-- Every file-system state reachable when the process may crash at any point
while executing the operation sequence. -/
def crashStates : List FileOp → FS → List FS
  | [], fs => [fs]
  | op :: rest, fs => fs :: midWriteStates op fs ++ crashStates rest (applyOp op fs)

/-- The operations `save_progress` performs: `open(self.progress_file, "w")`
truncates the progress file in place, then `json.dump` writes into it.
No temporary file and no rename are involved. -/
def saveProgressOps (st : ProgressState) : List FileOp :=
  [FileOp.truncateTarget, FileOp.writeTarget (serializeProgress st)]

/-- Modelled from the spec (progress-store contract, `save_progress` bullet):
the write-to-temporary-then-rename operation sequence the spec mandates.
Used only to compare crash behaviour against `saveProgressOps`. -/
def specAtomicSaveOps (st : ProgressState) : List FileOp :=
  [FileOp.truncateTemp, FileOp.writeTemp (serializeProgress st), FileOp.renameTempTarget]

/-- The state `load_progress` reconstructs on success. -/
structure LoadedProgress where
  currentIndex : Int
  totalEntries : Int
  translatedEntries : List SubtitleEntry
deriving Repr, DecidableEq

/-- First-match lookup in a parsed JSON object. -/
def jlookup (fields : List (String × JValue)) (k : String) : Option JValue :=
  match fields with
  | [] => none
  | (k0, v0) :: rest => if k0 = k then some v0 else jlookup rest k

/-- Reconstruction of one entry inside `load_progress`: missing `index`,
`start_time`, `end_time` or `text` keys raise (load fails); a non-string
time value makes `_parse_timedelta` fail internally and yield zero;
`original_text` defaults to `""` when absent. -/
def loadEntryJ (v : JValue) : Option SubtitleEntry :=
  match v with
  | JValue.jobj fs => do
    let idx ← match jlookup fs "index" with
      | some (JValue.jnum n) => some n
      | _ => none
    let stv ← jlookup fs "start_time"
    let env ← jlookup fs "end_time"
    let startTime := match stv with
      | JValue.jstr s => parseTimedelta s
      | _ => 0
    let endTime := match env with
      | JValue.jstr s => parseTimedelta s
      | _ => 0
    let txt ← match jlookup fs "text" with
      | some (JValue.jstr s) => some s
      | _ => none
    let ot ← match jlookup fs "original_text" with
      | none => some (some "")
      | some JValue.jnull => some none
      | some (JValue.jstr s) => some (some s)
      | some _ => none
    pure (mkSubtitleEntry idx startTime endTime txt ot)
  | _ => none

/-- Model of `TranslationProgress.load_progress` reading the given progress
file content (`none` content = file absent = `has_existing_progress()` false).
`none` result models every `return False` path: absent file, unparsable JSON,
missing required fields, mismatched paths, or a reconstruction error. -/
def loadProgressModel (inp out : String) (content : Option String) :
    Option LoadedProgress := do
  let c ← content
  let j ← jsonParse c
  match j with
  | JValue.jobj fs => do
    guard ((["input_file", "output_file", "current_index", "total_entries",
             "translated_entries", "timestamp"].all
             (fun k => (jlookup fs k).isSome)) = true)
    let okInp := match jlookup fs "input_file" with
      | some (JValue.jstr s) => s = inp
      | _ => false
    let okOut := match jlookup fs "output_file" with
      | some (JValue.jstr s) => s = out
      | _ => false
    guard (okInp = true)
    guard (okOut = true)
    let ci ← match jlookup fs "current_index" with
      | some (JValue.jnum n) => some n
      | _ => none
    let te ← match jlookup fs "total_entries" with
      | some (JValue.jnum n) => some n
      | _ => none
    let arr ← match jlookup fs "translated_entries" with
      | some (JValue.jarr xs) => some xs
      | _ => none
    let entries ← arr.mapM loadEntryJ
    pure { currentIndex := ci, totalEntries := te, translatedEntries := entries }
  | _ => none

/-! ### Concrete test inputs shared by several theorems -/

/-- The spec's example input: five entries `(1, "Hello") … (5, "Baz")`. -/
def sampleEntries5 : List SubtitleEntry :=
  [mkSubtitleEntry 1 0 1000000 "Hello" none,
   mkSubtitleEntry 2 2000000 3000000 "World" none,
   mkSubtitleEntry 3 4000000 5000000 "Foo" none,
   mkSubtitleEntry 4 6000000 7000000 "Bar" none,
   mkSubtitleEntry 5 8000000 9000000 "Baz" none]

/-- A successful batch backend that echoes each input line untranslated. -/
def echoBatchO : List String → Option String :=
  fun texts => some (pyJoin "\n" texts)

/-- Rendering of one SRT timestamp, as the parser's regex expects it. -/
def mkTimestamp (g : Nat × Nat × Nat × Nat) : String :=
  pad2 g.1 ++ ":" ++ pad2 g.2.1 ++ ":" ++ pad2 g.2.2.1 ++ "," ++ pad3 g.2.2.2

/-- Six entries, enough to trigger the fast-batch dispatch threshold. -/
def sampleEntries6 : List SubtitleEntry :=
  sampleEntries5 ++ [mkSubtitleEntry 6 10000000 11000000 "Qux" none]

/-- A simple oracle bundle for the pipeline: translation answers `"Szia"`,
validation parses to defaults, dialogue raises, fast-batch answers one
marker line, individual fast fallback raises. -/
def c8Oracles : PipelineOracles :=
  ⟨fun _ => some "Szia", fun _ => some none, fun _ => none,
   fun _ => some "[1] Szia", fun _ => none⟩

/-- A progress state already on disk before the next save. -/
def oldProgress : ProgressState :=
  ⟨"in.srt", "out.srt", 1, 2, [mkSubtitleEntry 1 0 1000000 "Hello" none], "T0", "S"⟩

/-- The next progress state being saved when the crash happens. -/
def newProgress : ProgressState :=
  ⟨"in.srt", "out.srt", 2, 2,
   [mkSubtitleEntry 1 0 1000000 "Hello" none,
    mkSubtitleEntry 2 2000000 3000000 "World" none], "T1", "S"⟩

/-- File system before the save: the progress file holds the old state. -/
def preSaveFS : FS := ⟨some (serializeProgress oldProgress), none⟩

/-- File system after a crash between the truncating open and the write. -/
def truncatedFS : FS := ⟨some "", none⟩

/-!
## Theorems

One theorem (plus witness/counterexample where required) per claim, with
shared helper lemmas.
-/

theorem fallbackLoop_snd (avail : String → Bool) (retry : String → Option String) :
    ∀ (ms : List String) (cur : String), (fallbackLoop avail retry ms cur).2 = cur := by
  intro ms
  induction ms with
  | nil => intro cur; rfl
  | cons m rest ih =>
    intro cur
    simp only [fallbackLoop]
    cases h : avail m with
    | false => simpa [h] using ih cur
    | true =>
      cases hr : retry m with
      | some r => simp [h, hr]
      | none => simp [h, hr, ih]

/-- C10: `translate_with_fallback` temporarily switches `config.model` to each
candidate but always restores the entry value: whatever the availability and
per-model outcomes (success, per-model failure, or the final all-models-failed
error), the final `config.model` equals the initial one. -/
theorem c10_translate_with_fallback_restores_model (primaryModel : String)
    (fallbackModels : List String) (avail : String → Bool)
    (retry : String → Option String) :
    (translateWithFallback primaryModel fallbackModels avail retry).2 = primaryModel :=
  fallbackLoop_snd avail retry (primaryModel :: fallbackModels) primaryModel

/-- C3: the save/load round trip does not restore times. `_timedelta_to_str`
serializes seconds and milliseconds as `SS,mmm`, while `_parse_timedelta`
splits the seconds field on `.`; `int("01,500")` raises, the `except` clause
yields `timedelta(0)`, and `load_progress` still reports success. At the
failing input (an entry with times 1.5 s and 3 s) the reloaded state has both
times zeroed and differs from the saved one. -/
theorem c3_roundtrip_times_zeroed :
    parseTimedelta (timedeltaToStr 1500000) = 0 ∧
    loadProgressModel "movie.srt" "movie.hu.srt"
        (some (serializeProgress ⟨"movie.srt", "movie.hu.srt", 1, 1,
          [mkSubtitleEntry 1 1500000 3000000 "Hello" none], "T", "S"⟩)) =
      some ⟨1, 1, [mkSubtitleEntry 1 0 0 "Hello" none]⟩ ∧
    mkSubtitleEntry 1 0 0 "Hello" none ≠ mkSubtitleEntry 1 1500000 3000000 "Hello" none := by
  decide

/-- C6 counterexample: `_parse_batch_translation` (ollama_client.py) assigns
response lines to entries purely by position. For the response declaring
markers `[2]` then `[1]`, the first entry receives the first line verbatim
(marker and all); the translation `"A"` that the `[1]` marker declares for it
is not used, so the numeric marker does not take priority there. -/
theorem c6_counterexample :
    parseBatchTranslation "[2] B\n[1] A" 2 = ["[2] B", "[1] A"] ∧
    (parseBatchTranslation "[2] B\n[1] A" 2)[0]? ≠ some "A" := by decide

/-- C6 as amended: in `_parse_batch_response` (multi_model.py) a numeric-marker
match on `entry.index` always wins, and the position-based match (the
warning-logged path, tagged `MatchMethod.position`) fires only when no marker
match exists for the entry. -/
theorem c6_amended_marker_priority (response : String) (batch : List SubtitleEntry)
    (i : Nat) (e : SubtitleEntry) (he : batch[i]? = some e) :
    (∀ t, lookupMarker (extractMarkers response) e.index = some t →
      (parseBatchResponse response batch)[i]? = some t ∧
      (batchMatchMethods response batch)[i]? = some MatchMethod.marker) ∧
    ((batchMatchMethods response batch)[i]? = some MatchMethod.position →
      lookupMarker (extractMarkers response) e.index = none ∧
      (parseBatchResponse response batch)[i]? =
        lookupMarker (extractMarkers response) ((i : Int) + 1)) := by
  have hb : (batch.enum)[i]? = some (i, e) := by
    rw [List.getElem?_enum, he]; rfl
  constructor
  · intro t ht
    simp [parseBatchResponse, batchMatchMethods, List.getElem?_map, hb, matchEntry, ht]
  · intro hpos
    cases hidx : lookupMarker (extractMarkers response) e.index with
    | some t =>
      exfalso
      simp [batchMatchMethods, List.getElem?_map, hb, matchEntry, hidx] at hpos
    | none =>
      refine ⟨rfl, ?_⟩
      cases hp : lookupMarker (extractMarkers response) ((i : Int) + 1) with
      | some t =>
        simp [parseBatchResponse, List.getElem?_map, hb, matchEntry, hidx, hp]
      | none =>
        exfalso
        simp [batchMatchMethods, List.getElem?_map, hb, matchEntry, hidx, hp] at hpos

/-- Witness for the amended C6 theorem at a concrete input: the batch entry
has index 7 at position 0; the response marks both `[7]` and `[1]`, and the
`[7]` marker match is taken (position 0 would have selected `[1]`). -/
theorem c6_amended_marker_priority_witness :
    (parseBatchResponse "[7] X\n[1] Y" [mkSubtitleEntry 7 0 1 "orig" none])[0]? = some "X" ∧
    (batchMatchMethods "[7] X\n[1] Y" [mkSubtitleEntry 7 0 1 "orig" none])[0]? =
      some MatchMethod.marker :=
  (c6_amended_marker_priority "[7] X\n[1] Y" [mkSubtitleEntry 7 0 1 "orig" none] 0
      (mkSubtitleEntry 7 0 1 "orig" none) (by decide)).1 "X" (by decide)

/-- C5 counterexample: on the spec's five-entry example with `batch_size = 2`,
`overlap_size = 1`, the scheduler's actual request trace is neither the
claimed index lists `[1,2], [2,3], [4,5]` nor the claimed overlap-start
sequence `0, 1, 4`. -/
theorem c5_counterexample :
    ((translateEntriesBatch ⟨2, 1, true⟩ sampleEntries5 echoBatchO
        (fun _ => none)).requests.map (fun r => r.reqIndices) ≠
      [[1, 2], [2, 3], [4, 5]]) ∧
    ((translateEntriesBatch ⟨2, 1, true⟩ sampleEntries5 echoBatchO
        (fun _ => none)).requests.map (fun r => r.overlapStart) ≠ [0, 1, 4]) := by
  decide

/-- C5 as amended: the actual trace. Requests (batch_start, overlap_start,
batch_end, indices) are `(0,0,2,[1,2])`, `(2,1,4,[2,3,4])`, `(4,3,5,[4,5])` —
`overlap_start = max(0, batch_start - 1)` and
`batch_end = min(batch_start + 2, 5)` — and the final committed order is
`[1,2,3,4,5]`. -/
theorem c5_amended_trace :
    (translateEntriesBatch ⟨2, 1, true⟩ sampleEntries5 echoBatchO
        (fun _ => none)).requests =
      [⟨0, 0, 2, [1, 2]⟩, ⟨2, 1, 4, [2, 3, 4]⟩, ⟨4, 3, 5, [4, 5]⟩] ∧
    (translateEntriesBatch ⟨2, 1, true⟩ sampleEntries5 echoBatchO
        (fun _ => none)).committed.map (fun e => e.index) = [1, 2, 3, 4, 5] := by
  decide

/-- C9 counterexample: a block whose timestamp line declares `end_time` (3 s)
strictly below `start_time` (5 s) is parsed successfully and accepted into
the entry list — the invariant `end_time > start_time` is not enforced. -/
theorem c9_counterexample :
    parseBlock "1\n00:00:05,000 --> 00:00:03,000\nHello" =
      Except.ok (some (mkSubtitleEntry 1 5000000 3000000 "Hello" none)) ∧
    parseContent "1\n00:00:05,000 --> 00:00:03,000\nHello" =
      Except.ok [mkSubtitleEntry 1 5000000 3000000 "Hello" none] ∧
    ¬ ((3000000 : Int) > 5000000) := by decide

theorem digitCh_facts : ∀ k < 10, (digitCh k).isDigit = true ∧ digitVal (digitCh k) = k ∧
    isPyWs (digitCh k) = false := by decide

theorem data_append (a b : String) : (a ++ b).data = a.data ++ b.data := rfl

theorem data_mk (l : List Char) : (String.mk l).data = l := rfl

theorem expectChar_self (c : Char) (l : List Char) : expectChar c (c :: l) = some l := by
  simp [expectChar]

theorem take2Digits_pad2 (n : Nat) (hn : n < 100) (rest : List Char) :
    take2Digits ((pad2 n).data ++ rest) = some (n, rest) := by
  have h1 : n / 10 < 10 := by omega
  have h2 : n % 10 < 10 := Nat.mod_lt _ (by norm_num)
  have d1 := digitCh_facts (n / 10) h1
  have d2 := digitCh_facts (n % 10) h2
  simp only [pad2, if_pos hn, data_mk, List.cons_append, List.nil_append, take2Digits,
    d1.1, d1.2.1, d2.1, d2.2.1]
  simp only [true_and, if_true]
  congr 1
  ext
  · omega
  · rfl

theorem take3Digits_pad3 (n : Nat) (hn : n < 1000) (rest : List Char) :
    take3Digits ((pad3 n).data ++ rest) = some (n, rest) := by
  have h1 : n / 100 < 10 := by omega
  have h2 : n / 10 % 10 < 10 := Nat.mod_lt _ (by norm_num)
  have h3 : n % 10 < 10 := Nat.mod_lt _ (by norm_num)
  have d1 := digitCh_facts (n / 100) h1
  have d2 := digitCh_facts (n / 10 % 10) h2
  have d3 := digitCh_facts (n % 10) h3
  simp only [pad3, if_pos hn, data_mk, List.cons_append, List.nil_append, take3Digits,
    d1.1, d1.2.1, d2.1, d2.2.1, d3.1, d3.2.1]
  simp only [true_and, if_true]
  congr 1
  ext
  · omega
  · rfl

theorem takeTimestampGroups_mk (h m s ms : Nat) (hh : h < 100) (hm : m < 100)
    (hs : s < 100) (hms : ms < 1000) (rest : List Char) :
    takeTimestampGroups ((mkTimestamp (h, m, s, ms)).data ++ rest) =
      some ((h, m, s, ms), rest) := by
  have hsplit : (mkTimestamp (h, m, s, ms)).data ++ rest =
      (pad2 h).data ++ ':' :: ((pad2 m).data ++ ':' ::
        ((pad2 s).data ++ ',' :: ((pad3 ms).data ++ rest))) := by
    simp [mkTimestamp, data_append, data_mk]
  rw [hsplit]
  simp only [takeTimestampGroups, bind, Option.bind,
    take2Digits_pad2 h hh, take2Digits_pad2 m hm, take2Digits_pad2 s hs,
    take3Digits_pad3 ms hms, expectChar_self]
  simp

/-- C9 as amended: the timestamp matcher of `_parse_block` recovers exactly
the two timestamps the line declares and imposes no relation between them —
in particular `end ≤ start` lines match, and (together with
`c9_counterexample`) such blocks are accepted into the entry list. -/
theorem c9_amended_no_time_relation (h1 m1 s1 ms1 h2 m2 s2 ms2 : Nat)
    (bh1 : h1 < 100) (bm1 : m1 < 100) (bs1 : s1 < 100) (bms1 : ms1 < 1000)
    (bh2 : h2 < 100) (bm2 : m2 < 100) (bs2 : s2 < 100) (bms2 : ms2 < 1000) :
    timePatternMatch (mkTimestamp (h1, m1, s1, ms1) ++ " --> " ++
        mkTimestamp (h2, m2, s2, ms2)) =
      some ((h1, m1, s1, ms1), (h2, m2, s2, ms2)) := by
  have hd2 : h2 / 10 < 10 := by omega
  have hsplit : (mkTimestamp (h1, m1, s1, ms1) ++ " --> " ++
      mkTimestamp (h2, m2, s2, ms2)).data =
      (mkTimestamp (h1, m1, s1, ms1)).data ++
        (' ' :: '-' :: '-' :: '>' :: ' ' :: ((mkTimestamp (h2, m2, s2, ms2)).data ++ [])) := by
    simp [data_append]
  have hws : List.dropWhile isPyWs
      (' ' :: '-' :: '-' :: '>' :: ' ' :: ((mkTimestamp (h2, m2, s2, ms2)).data ++ [])) =
      '-' :: '-' :: '>' :: ' ' :: ((mkTimestamp (h2, m2, s2, ms2)).data ++ []) := by
    simp [List.dropWhile, isPyWs]
  have hts : (mkTimestamp (h2, m2, s2, ms2)).data ++ ([] : List Char) =
      (pad2 h2).data ++ (':' :: ((pad2 m2).data ++ ':' :: ((pad2 s2).data ++
        ',' :: (pad3 ms2).data))) := by
    simp [mkTimestamp, data_append, data_mk]
  have hhead : List.dropWhile isPyWs
      (' ' :: ((mkTimestamp (h2, m2, s2, ms2)).data ++ [])) =
      (mkTimestamp (h2, m2, s2, ms2)).data ++ [] := by
    have hdig := (digitCh_facts (h2 / 10) hd2).2.2
    have hsp : isPyWs ' ' = true := by decide
    rw [hts]
    simp only [pad2, if_pos bh2, data_mk, List.cons_append, List.dropWhile_cons, hsp, hdig]
    simp
  simp only [timePatternMatch, bind, Option.bind, String.toList, hsplit,
    takeTimestampGroups_mk h1 m1 s1 ms1 bh1 bm1 bs1 bms1, hws, expectChar_self, hhead,
    takeTimestampGroups_mk h2 m2 s2 ms2 bh2 bm2 bs2 bms2]
  simp

/-- Witness for the amended C9 theorem: the concrete decreasing timestamps
5 s → 3 s match and yield exactly those two group tuples. -/
theorem c9_amended_no_time_relation_witness :
    timePatternMatch (mkTimestamp (0, 0, 5, 0) ++ " --> " ++ mkTimestamp (0, 0, 3, 0)) =
      some ((0, 0, 5, 0), (0, 0, 3, 0)) :=
  c9_amended_no_time_relation 0 0 5 0 0 0 3 0 (by decide) (by decide) (by decide)
    (by decide) (by decide) (by decide) (by decide) (by decide)

theorem lineByLineGo_spec (retryO fbO : Nat → Option String) :
    ∀ (entries : List SubtitleEntry) (i0 : Nat),
      (lineByLineGo retryO fbO entries i0).1.length = entries.length ∧
      (lineByLineGo retryO fbO entries i0).2 = entries.length ∧
      (∀ j e, entries[j]? = some e → retryO (i0 + j) = none → fbO (i0 + j) = none →
        (lineByLineGo retryO fbO entries i0).1[j]? = some e) := by
  intro entries
  induction entries with
  | nil =>
    intro i0
    refine ⟨rfl, rfl, ?_⟩
    intro j e hj
    simp at hj
  | cons a rest ih =>
    intro i0
    obtain ⟨ihlen, ihcnt, ihget⟩ := ih (i0 + 1)
    refine ⟨by simp [lineByLineGo, ihlen], by simp [lineByLineGo, ihcnt], ?_⟩
    intro j e hj hr hf
    cases j with
    | zero =>
      simp only [List.getElem?_cons_zero, Option.some.injEq] at hj
      subst hj
      simp only [Nat.add_zero] at hr hf
      simp [lineByLineGo, hr, hf]
    | succ k =>
      have e1 : i0 + (k + 1) = (i0 + 1) + k := by omega
      rw [e1] at hr hf
      have := ihget k e (by simpa using hj) hr hf
      simp [lineByLineGo, this]

/-- C7: in line-by-line mode, when both `translate_with_retry` and the
subsequent `translate_with_fallback` raise for the entry at position `i`, the
output still contains that entry unchanged at position `i` (its text is the
original text), every entry is counted in progress
(`progress.add_translated_entry` runs once per entry), and the function
returns normally with one output entry per input entry. -/
theorem c7_failed_entry_commits_original (retryO fbO : Nat → Option String)
    (entries : List SubtitleEntry) (i : Nat) (e : SubtitleEntry)
    (he : entries[i]? = some e) (hr : retryO i = none) (hf : fbO i = none) :
    (translateLineByLine retryO fbO entries).1[i]? = some e ∧
    (translateLineByLine retryO fbO entries).1.length = entries.length ∧
    (translateLineByLine retryO fbO entries).2 = entries.length := by
  obtain ⟨hlen, hcnt, hget⟩ := lineByLineGo_spec retryO fbO entries 0
  exact ⟨hget i e he (by simpa using hr) (by simpa using hf), hlen, hcnt⟩

/-- Witness for C7: with a backend whose retry and fallback calls all raise
for position 2, the third sample entry is committed unchanged and all five
entries are counted. -/
theorem c7_failed_entry_commits_original_witness :
    (translateLineByLine (fun _ => none)
        (fun i => if i = 2 then none else some "ok") sampleEntries5).1[2]? =
      some (mkSubtitleEntry 3 4000000 5000000 "Foo" none) ∧
    (translateLineByLine (fun _ => none)
        (fun i => if i = 2 then none else some "ok") sampleEntries5).1.length =
      sampleEntries5.length ∧
    (translateLineByLine (fun _ => none)
        (fun i => if i = 2 then none else some "ok") sampleEntries5).2 =
      sampleEntries5.length :=
  c7_failed_entry_commits_original (fun _ => none)
    (fun i => if i = 2 then none else some "ok") sampleEntries5 2
    (mkSubtitleEntry 3 4000000 5000000 "Foo" none) (by decide) (by decide) (by decide)

theorem commitFold_append (cfg : BatchConfig) (B : Nat)
    (hre : cfg.reassessOverlaps = false) :
    ∀ (pairs : List (SubtitleEntry × String)) (q : Nat) (st : BatchState),
      ∃ tl, (commitFold cfg B pairs q st).committed = st.committed ++ tl := by
  intro pairs
  induction pairs with
  | nil => intro q st; exact ⟨[], by simp [commitFold]⟩
  | cons p rest ih =>
    intro q st
    obtain ⟨e, t⟩ := p
    simp only [commitFold, hre, Bool.false_eq_true, false_and, if_false]
    by_cases hq : q < B
    · simpa [hq] using ih (q + 1) st
    · simp only [if_neg hq]
      by_cases hc : q ∈ st.processed
      · simpa [hc] using ih (q + 1) st
      · obtain ⟨tl, htl⟩ := ih (q + 1)
          { st with
              committed := st.committed ++
                [mkSubtitleEntry e.index e.start_time e.end_time t (some e.text)],
              processed := q :: st.processed }
        exact ⟨mkSubtitleEntry e.index e.start_time e.end_time t (some e.text) :: tl,
          by simp [hc, htl]⟩

theorem fallbackFold_append (retryO : Nat → Option String) :
    ∀ (news : List SubtitleEntry) (q : Nat) (st : BatchState),
      ∃ tl, (fallbackFold retryO news q st).committed = st.committed ++ tl := by
  intro news
  induction news with
  | nil => intro q st; exact ⟨[], by simp [fallbackFold]⟩
  | cons e rest ih =>
    intro q st
    simp only [fallbackFold]
    cases hr : retryO q with
    | some t =>
      by_cases hc : q ∈ st.processed
      · simpa [hr, hc] using ih (q + 1) st
      · obtain ⟨tl, htl⟩ := ih (q + 1)
          { st with
              committed := st.committed ++
                [mkSubtitleEntry e.index e.start_time e.end_time t (some e.text)],
              processed := q :: st.processed }
        exact ⟨mkSubtitleEntry e.index e.start_time e.end_time t (some e.text) :: tl,
          by simp [hr, hc, htl]⟩
    | none =>
      by_cases hc : q ∈ st.processed
      · simpa [hr, hc] using ih (q + 1) st
      · obtain ⟨tl, htl⟩ := ih (q + 1)
          { st with committed := st.committed ++ [e], processed := q :: st.processed }
        exact ⟨e :: tl, by simp [hr, hc, htl]⟩

theorem processBatch_append (cfg : BatchConfig) (entries : List SubtitleEntry)
    (batchO : List String → Option String) (retryO : Nat → Option String)
    (hre : cfg.reassessOverlaps = false) (st : BatchState) (batchStart : Nat) :
    ∃ tl, (processBatch cfg entries batchO retryO st batchStart).committed =
      st.committed ++ tl := by
  have core : ∀ (overlapStart : Nat) (fullBatch newEntries : List SubtitleEntry)
      (res : Option (List String)) (st' : BatchState),
      ∃ tl, (processBatchCore cfg retryO batchStart overlapStart fullBatch newEntries
        res st').committed = st'.committed ++ tl := by
    intro overlapStart fullBatch newEntries res st'
    cases res with
    | some ts => exact commitFold_append cfg batchStart hre _ _ _
    | none => exact fallbackFold_append retryO _ _ _
  unfold processBatch
  obtain ⟨tl, htl⟩ := core _ _ _ _ _
  exact ⟨tl, by simpa using htl⟩

/-- C4: with `reassess_overlaps` disabled, processing any number of further
batches only ever appends to the committed list — every already-committed
record (all its fields) is left exactly in place; overlap-entry results are
discarded entirely. -/
theorem c4_reassess_off_never_alters_committed (cfg : BatchConfig)
    (hre : cfg.reassessOverlaps = false) (entries : List SubtitleEntry)
    (batchO : List String → Option String) (retryO : Nat → Option String) :
    ∀ (fuel : Nat) (st : BatchState) (batchStart : Nat),
      ∃ tl, (runBatches cfg entries batchO retryO fuel st batchStart).committed =
        st.committed ++ tl := by
  intro fuel
  induction fuel with
  | zero => intro st batchStart; exact ⟨[], by simp [runBatches]⟩
  | succ n ih =>
    intro st batchStart
    by_cases h : batchStart < entries.length ∧ 0 < cfg.batchSize
    · obtain ⟨tl1, h1⟩ := processBatch_append cfg entries batchO retryO hre st batchStart
      obtain ⟨tl2, h2⟩ :=
        ih (processBatch cfg entries batchO retryO st batchStart)
          (min (batchStart + cfg.batchSize) entries.length)
      exact ⟨tl1 ++ tl2, by simp [runBatches, h, h2, h1]⟩
    · exact ⟨[], by simp [runBatches, h]⟩

/-- Witness for C4: starting from a state with one committed entry, running
the scheduler over the remaining sample entries with reassessment disabled
leaves that entry as the unchanged head of the committed list. -/
theorem c4_reassess_off_never_alters_committed_witness :
    ∃ tl, (runBatches ⟨2, 1, false⟩ sampleEntries5 echoBatchO (fun _ => none) 6
        ⟨[mkSubtitleEntry 1 0 1000000 "Hello" none], [0], []⟩ 1).committed =
      [mkSubtitleEntry 1 0 1000000 "Hello" none] ++ tl :=
  c4_reassess_off_never_alters_committed ⟨2, 1, false⟩ rfl sampleEntries5 echoBatchO
    (fun _ => none) 6 ⟨[mkSubtitleEntry 1 0 1000000 "Hello" none], [0], []⟩ 1

theorem mkSubtitleEntry_index (i s e : Int) (t : String) (o : Option String) :
    (mkSubtitleEntry i s e t o).index = i := rfl

theorem reassessReplace_map (tE : SubtitleEntry) (tT : String) :
    ∀ l : List SubtitleEntry,
      (reassessReplace tE tT l).map (fun e => e.index) = l.map (fun e => e.index) := by
  intro l
  induction l with
  | nil => rfl
  | cons x xs ih =>
    simp only [reassessReplace]
    by_cases h : x.index = tE.index
    · by_cases h2 : tT ≠ x.text
      · simp only [if_pos h, if_pos h2, List.map_cons]
        rw [h]
      · simp [h, h2]
    · simp [h, ih]

theorem parseBatchTranslation_length (content : String) (n : Nat) :
    (parseBatchTranslation content n).length = n := by
  simp only [parseBatchTranslation, List.length_map, List.length_range]

theorem translateBatch_length (batchO : List String → Option String)
    (texts ts : List String) (h : translateBatch batchO texts = some ts) :
    ts.length = texts.length := by
  unfold translateBatch at h
  split at h
  · rename_i he
    cases h
    simp [he]
  · cases hb : batchO texts with
    | none => rw [hb] at h; simp at h
    | some raw =>
      rw [hb] at h
      simp at h
      rw [← h, List.length_map, parseBatchTranslation_length]

theorem commitFold_inv (cfg : BatchConfig) (entries : List SubtitleEntry) (B : Nat) :
    ∀ (pairs : List (SubtitleEntry × String)) (q : Nat) (st : BatchState),
      (∀ p, p ∈ st.processed ↔ p < max B q) →
      st.committed.map (fun e => e.index) =
        (entries.take (max B q)).map (fun e => e.index) →
      pairs.map Prod.fst = (entries.drop q).take pairs.length →
      q + pairs.length ≤ entries.length →
      (∀ p, p ∈ (commitFold cfg B pairs q st).processed ↔
        p < max B (q + pairs.length)) ∧
      (commitFold cfg B pairs q st).committed.map (fun e => e.index) =
        (entries.take (max B (q + pairs.length))).map (fun e => e.index) := by
  intro pairs
  induction pairs with
  | nil =>
    intro q st hproc hcomm hpairs hlen
    simp only [commitFold, List.length_nil, Nat.add_zero]
    exact ⟨hproc, hcomm⟩
  | cons p rest ih =>
    intro q st hproc hcomm hpairs hlen
    obtain ⟨e, t⟩ := p
    simp only [List.length_cons] at hlen ⊢
    have hq : q < entries.length := by omega
    have hdrop : entries.drop q = entries[q] :: entries.drop (q + 1) :=
      List.drop_eq_getElem_cons hq
    rw [hdrop] at hpairs
    simp only [List.map_cons, List.length_cons, List.take_succ_cons, List.cons.injEq] at hpairs
    obtain ⟨heq, hrest⟩ := hpairs
    have hsum : q + (rest.length + 1) = (q + 1) + rest.length := by omega
    simp only [commitFold]
    by_cases hqB : q < B
    · have hmax1 : max B (q + 1) = max B q := by omega
      rw [if_pos hqB]
      have step : ∀ st'' : BatchState,
          st''.processed = st.processed →
          st''.committed.map (fun e => e.index) = st.committed.map (fun e => e.index) →
          (∀ p, p ∈ (commitFold cfg B rest (q + 1) st'').processed ↔
            p < max B (q + (rest.length + 1))) ∧
          (commitFold cfg B rest (q + 1) st'').committed.map (fun e => e.index) =
            (entries.take (max B (q + (rest.length + 1)))).map (fun e => e.index) := by
        intro st'' hp hc
        rw [hsum]
        exact ih (q + 1) st'' (by rw [hp, hmax1]; exact hproc)
          (by rw [hc, hmax1]; exact hcomm) hrest (by omega)
      apply step
      · split <;> rfl
      · split
        · exact reassessReplace_map _ _ _
        · rfl
    · have hBq : B ≤ q := Nat.le_of_not_lt hqB
      have hmaxq : max B q = q := by omega
      have hnot : q ∉ st.processed := by
        rw [hproc q, hmaxq]
        omega
      rw [if_neg hqB, if_neg hnot]
      rw [hsum]
      have hmax1 : max B (q + 1) = q + 1 := by omega
      refine ih (q + 1) _ ?_ ?_ hrest (by omega)
      · intro p
        simp only [List.mem_cons, hproc p, hmaxq, hmax1]
        omega
      · simp only [List.map_append, hcomm, hmaxq, hmax1, List.take_succ,
          List.getElem?_eq_getElem hq]
        simp [mkSubtitleEntry_index, heq]


theorem fallbackFold_inv (entries : List SubtitleEntry) (retryO : Nat → Option String) :
    ∀ (news : List SubtitleEntry) (q : Nat) (st : BatchState),
      (∀ p, p ∈ st.processed ↔ p < q) →
      st.committed.map (fun e => e.index) = (entries.take q).map (fun e => e.index) →
      news = (entries.drop q).take news.length →
      q + news.length ≤ entries.length →
      (∀ p, p ∈ (fallbackFold retryO news q st).processed ↔ p < q + news.length) ∧
      (fallbackFold retryO news q st).committed.map (fun e => e.index) =
        (entries.take (q + news.length)).map (fun e => e.index) := by
  intro news
  induction news with
  | nil =>
    intro q st hproc hcomm hnews hlen
    simp only [fallbackFold, List.length_nil, Nat.add_zero]
    exact ⟨hproc, hcomm⟩
  | cons e rest ih =>
    intro q st hproc hcomm hnews hlen
    simp only [List.length_cons] at hlen ⊢
    have hq : q < entries.length := by omega
    have hdrop : entries.drop q = entries[q] :: entries.drop (q + 1) :=
      List.drop_eq_getElem_cons hq
    rw [hdrop] at hnews
    simp only [List.length_cons, List.take_succ_cons, List.cons.injEq] at hnews
    obtain ⟨heq, hrest⟩ := hnews
    have hsum : q + (rest.length + 1) = (q + 1) + rest.length := by omega
    have hnot : q ∉ st.processed := by
      rw [hproc q]
      omega
    have hprocStep : ∀ p, p ∈ q :: st.processed ↔ p < q + 1 := by
      intro p
      simp only [List.mem_cons, hproc p]
      omega
    simp only [fallbackFold]
    rw [hsum]
    cases hr : retryO q with
    | some t =>
      dsimp only
      rw [if_neg hnot]
      refine ih (q + 1) _ hprocStep ?_ hrest (by omega)
      simp only [List.map_append, hcomm, List.take_succ, List.getElem?_eq_getElem hq]
      simp [mkSubtitleEntry_index, heq]
    | none =>
      dsimp only
      refine ih (q + 1) _ ?_ ?_ hrest (by omega)
      · intro p
        rw [if_neg hnot]
        exact hprocStep p
      · rw [if_neg hnot]
        simp only [List.map_append, hcomm, List.take_succ, List.getElem?_eq_getElem hq]
        simp [heq]

theorem processBatchCore_inv (cfg : BatchConfig) (entries : List SubtitleEntry)
    (retryO : Nat → Option String) (B O E : Nat)
    (fb nw : List SubtitleEntry) (res : Option (List String)) (stR : BatchState)
    (hBlen : B < entries.length)
    (hE : E = min (B + cfg.batchSize) entries.length)
    (hOB : O ≤ B)
    (hfb : fb = (entries.drop O).take (E - O))
    (hnw : nw = (entries.drop B).take (E - B))
    (hlen : ∀ ts, res = some ts → ts.length = fb.length)
    (hproc : ∀ p, p ∈ stR.processed ↔ p < B)
    (hcomm : stR.committed.map (fun e => e.index) =
      (entries.take B).map (fun e => e.index)) :
    (∀ p, p ∈ (processBatchCore cfg retryO B O fb nw res stR).processed ↔ p < E) ∧
    (processBatchCore cfg retryO B O fb nw res stR).committed.map (fun e => e.index) =
      (entries.take E).map (fun e => e.index) := by
  have hE1 : B ≤ E := by omega
  have hE2 : E ≤ entries.length := by omega
  have hfbl : fb.length = E - O := by
    rw [hfb]
    simp only [List.length_take, List.length_drop]
    omega
  cases res with
  | some ts =>
    have hts : ts.length = E - O := by rw [hlen ts rfl]; exact hfbl
    unfold processBatchCore
    have hzip : (fb.zip ts).map Prod.fst = fb := List.map_fst_zip _ _ (by omega)
    have hziplen : (fb.zip ts).length = E - O := by
      simp only [List.length_zip]
      omega
    have hmaxO : max B O = B := by omega
    have hmaxE : max B (O + (E - O)) = E := by omega
    have h := commitFold_inv cfg entries B (fb.zip ts) O stR
      (by rw [hmaxO]; exact hproc) (by rw [hmaxO]; exact hcomm)
      (by rw [hzip, hziplen]; exact hfb) (by omega)
    rw [hziplen, hmaxE] at h
    exact h
  | none =>
    unfold processBatchCore
    have hnwl : nw.length = E - B := by
      rw [hnw]
      simp only [List.length_take, List.length_drop]
      omega
    have h := fallbackFold_inv entries retryO nw B stR hproc hcomm
      (by rw [hnwl]; exact hnw) (by omega)
    rw [hnwl] at h
    have hBE : B + (E - B) = E := by omega
    rw [hBE] at h
    exact h

theorem processBatch_inv (cfg : BatchConfig) (entries : List SubtitleEntry)
    (batchO : List String → Option String) (retryO : Nat → Option String)
    (st : BatchState) (B : Nat) (hB : B < entries.length)
    (hproc : ∀ p, p ∈ st.processed ↔ p < B)
    (hcomm : st.committed.map (fun e => e.index) =
      (entries.take B).map (fun e => e.index)) :
    (∀ p, p ∈ (processBatch cfg entries batchO retryO st B).processed ↔
      p < min (B + cfg.batchSize) entries.length) ∧
    (processBatch cfg entries batchO retryO st B).committed.map (fun e => e.index) =
      (entries.take (min (B + cfg.batchSize) entries.length)).map
        (fun e => e.index) := by
  unfold processBatch
  exact processBatchCore_inv cfg entries retryO B _ _ _ _ _ _
    hB rfl (by split <;> omega) rfl rfl
    (fun ts hts => by rw [translateBatch_length _ _ _ hts, List.length_map])
    hproc hcomm

theorem runBatches_final (cfg : BatchConfig) (entries : List SubtitleEntry)
    (batchO : List String → Option String) (retryO : Nat → Option String)
    (hbs : 0 < cfg.batchSize) :
    ∀ (fuel : Nat) (st : BatchState) (B : Nat), B ≤ entries.length →
      (∀ p, p ∈ st.processed ↔ p < B) →
      st.committed.map (fun e => e.index) = (entries.take B).map (fun e => e.index) →
      entries.length - B < fuel →
      (runBatches cfg entries batchO retryO fuel st B).committed.map (fun e => e.index) =
        entries.map (fun e => e.index) := by
  intro fuel
  induction fuel with
  | zero => intro st B hB hproc hcomm hfuel; omega
  | succ n ih =>
    intro st B hB hproc hcomm hfuel
    by_cases hcond : B < entries.length ∧ 0 < cfg.batchSize
    · simp only [runBatches, if_pos hcond]
      obtain ⟨hproc2, hcomm2⟩ :=
        processBatch_inv cfg entries batchO retryO st B hcond.1 hproc hcomm
      exact ih _ _ (by omega) hproc2 hcomm2 (by omega)
    · have hBlen : B = entries.length := by
        rcases Decidable.not_and_iff_or_not.mp hcond with h | h
        · omega
        · exact absurd hbs h
      simp only [runBatches, if_neg hcond]
      rw [hcomm, hBlen, List.take_length]

/-- C1 as amended: for every parsed entry list and every configuration with
`overlap_size < batch_size`, the committed output carries exactly the input's
index sequence — exactly N entries, each input entry committed once, in input
order — so it is sorted by `index` ascending whenever the parsed input is
(the parser itself does not guarantee that order; see the counterexample). -/
theorem c1_order_and_count (cfg : BatchConfig) (entries : List SubtitleEntry)
    (batchO : List String → Option String) (retryO : Nat → Option String)
    (hov : cfg.overlapSize < cfg.batchSize) :
    (translateEntriesBatch cfg entries batchO retryO).committed.map (fun e => e.index) =
      entries.map (fun e => e.index) ∧
    (translateEntriesBatch cfg entries batchO retryO).committed.length =
      entries.length ∧
    (List.Sorted (· ≤ ·) (entries.map (fun e => e.index)) →
      List.Sorted (· ≤ ·)
        ((translateEntriesBatch cfg entries batchO retryO).committed.map
          (fun e => e.index))) := by
  have hbs : 0 < cfg.batchSize := by omega
  have hmain : (translateEntriesBatch cfg entries batchO retryO).committed.map
      (fun e => e.index) = entries.map (fun e => e.index) := by
    unfold translateEntriesBatch
    exact runBatches_final cfg entries batchO retryO hbs (entries.length + 1)
      ⟨[], [], []⟩ 0 (by omega) (by intro p; simp) (by simp) (by omega)
  refine ⟨hmain, ?_, ?_⟩
  · have := congrArg List.length hmain
    simpa using this
  · intro hsorted
    rw [hmain]
    exact hsorted

/-- Witness for C1: the five-entry sample with `batch_size = 2`,
`overlap_size = 1` commits exactly the indices `1..5` in order. -/
theorem c1_order_and_count_witness :
    (translateEntriesBatch ⟨2, 1, true⟩ sampleEntries5 echoBatchO
        (fun _ => none)).committed.map (fun e => e.index) =
      sampleEntries5.map (fun e => e.index) ∧
    (translateEntriesBatch ⟨2, 1, true⟩ sampleEntries5 echoBatchO
        (fun _ => none)).committed.length = sampleEntries5.length :=
  ⟨(c1_order_and_count ⟨2, 1, true⟩ sampleEntries5 echoBatchO (fun _ => none)
      (by decide)).1,
   (c1_order_and_count ⟨2, 1, true⟩ sampleEntries5 echoBatchO (fun _ => none)
      (by decide)).2.1⟩

/-- C1 counterexample: the parser accepts files whose blocks are not in index
order, and on such a parsed input the scheduler's committed output is not
sorted by `index` — the claim's sortedness conclusion fails for some parsed
inputs. -/
theorem c1_counterexample :
    parseContent "2\n00:00:01,000 --> 00:00:02,000\nB\n\n1\n00:00:03,000 --> 00:00:04,000\nA" =
      Except.ok [mkSubtitleEntry 2 1000000 2000000 "B" none,
        mkSubtitleEntry 1 3000000 4000000 "A" none] ∧
    (translateEntriesBatch ⟨2, 1, true⟩
        [mkSubtitleEntry 2 1000000 2000000 "B" none,
         mkSubtitleEntry 1 3000000 4000000 "A" none]
        echoBatchO (fun _ => none)).committed.map (fun e => e.index) = [2, 1] ∧
    ¬ List.Sorted (· ≤ ·) [(2 : Int), 1] := by
  refine ⟨by decide, by decide, ?_⟩
  intro hs
  have := (List.sorted_cons.mp hs).1 1 (by simp)
  omega

theorem processEntry_skip_accounting (flags : PipelineFlags) (o : PipelineOracles)
    (e : SubtitleEntry) (hv : flags.runValidation = false)
    (hd : flags.runDialogueRefinement = false) :
    (processEntry flags o e).2.step3 = some (StepRes.skip (some "disabled")) ∧
    (processEntry flags o e).2.step4 = some (StepRes.skip (some "disabled")) ∧
    (flags.runTranslation = true →
      ∃ t c, (processEntry flags o e).2.step2 = some (StepRes.done t c) ∧
        (processEntry flags o e).2.final = some (t, c)) ∧
    (flags.runTranslation = false →
      (processEntry flags o e).2.step2 = some (StepRes.skip none) ∧
      (processEntry flags o e).2.final = some (e.text, 1/2)) := by
  cases ht : flags.runTranslation with
  | true =>
    refine ⟨?_, ?_, ?_, ?_⟩ <;>
      simp [processEntry, hv, hd, ht]
  | false =>
    refine ⟨?_, ?_, ?_, ?_⟩ <;>
      simp [processEntry, hv, hd, ht]

/-- C8 as amended: when validation and dialogue are disabled and the
per-entry pipeline path runs (context analysis enabled, or translation
disabled, or at most 5 entries — otherwise the fast-batch path writes records
without step 3/4 keys at all), every entry record marks `step3_validation`
and `step4_dialogue` skipped with reason `"disabled"`; with translation
enabled, `final_result` carries exactly `step2_translation`'s text and
confidence, and with translation disabled `step2_translation` is a bare skip
and `final_result.text` is the original text. One record is written per
entry. -/
theorem c8_disabled_stages_accounting (flags : PipelineFlags) (o : PipelineOracles)
    (entries : List SubtitleEntry)
    (hen : flags.enabled = true) (hv : flags.runValidation = false)
    (hd : flags.runDialogueRefinement = false)
    (hpath : flags.runContextAnalysis = true ∨ flags.runTranslation = false ∨
      ¬ (entries.length > 5)) :
    (translateWithMultimodel flags o entries).2.length = entries.length ∧
    ∀ rec ∈ (translateWithMultimodel flags o entries).2,
      rec.step3 = some (StepRes.skip (some "disabled")) ∧
      rec.step4 = some (StepRes.skip (some "disabled")) ∧
      (flags.runTranslation = true →
        ∃ t c, rec.step2 = some (StepRes.done t c) ∧ rec.final = some (t, c)) ∧
      (flags.runTranslation = false →
        rec.step2 = some (StepRes.skip none) ∧
        rec.final = some (rec.originalText, 1/2)) := by
  have hfast : ¬ ((flags.runTranslation ∧ flags.runContextAnalysis = false ∧
      flags.runValidation = false ∧ flags.runDialogueRefinement = false) ∧
      entries.length > 5) := by
    rintro ⟨⟨htr, hctx, -, -⟩, hlen⟩
    rcases hpath with h | h | h
    · rw [h] at hctx; cases hctx
    · rw [h] at htr; cases htr
    · exact h hlen
  unfold translateWithMultimodel
  rw [hen]
  simp only [Bool.true_eq_false, if_false, if_neg hfast]
  constructor
  · simp
  · intro rec hrec
    simp only [List.mem_map] at hrec
    obtain ⟨pr, ⟨e, he, hpe⟩, hrec2⟩ := hrec
    have h := processEntry_skip_accounting flags o e hv hd
    rw [← hpe] at hrec2
    subst hrec2
    refine ⟨h.1, h.2.1, h.2.2.1, ?_⟩
    intro hfalse
    obtain ⟨h2, h3⟩ := h.2.2.2 hfalse
    have horig : (processEntry flags o e).2.originalText = e.text := by
      simp [processEntry]
    rw [horig]
    exact ⟨h2, h3⟩

/-- Witness for the amended C8 theorem: three entries on the per-entry path
with validation and dialogue disabled; the first record shows the skipped
sub-records and the final text matching step 2. -/
theorem c8_disabled_stages_accounting_witness :
    (translateWithMultimodel ⟨true, false, true, false, false, false⟩ c8Oracles
      (sampleEntries5.take 3)).2.length = (sampleEntries5.take 3).length ∧
    ∀ rec ∈ (translateWithMultimodel ⟨true, false, true, false, false, false⟩ c8Oracles
        (sampleEntries5.take 3)).2,
      rec.step3 = some (StepRes.skip (some "disabled")) ∧
      rec.step4 = some (StepRes.skip (some "disabled")) ∧
      ((true : Bool) = true →
        ∃ t c, rec.step2 = some (StepRes.done t c) ∧ rec.final = some (t, c)) ∧
      ((true : Bool) = false →
        rec.step2 = some (StepRes.skip none) ∧
        rec.final = some (rec.originalText, 1/2)) :=
  c8_disabled_stages_accounting ⟨true, false, true, false, false, false⟩ c8Oracles
    (sampleEntries5.take 3) rfl rfl rfl (Or.inr (Or.inr (by decide)))

/-- C8 counterexample: a translation-only configuration on six entries takes
the fast-batch path, whose records contain no `step3_validation` or
`step4_dialogue` keys at all — they are absent, not skip-marked. -/
theorem c8_counterexample :
    ((translateWithMultimodel ⟨true, false, true, false, false, false⟩ c8Oracles
        sampleEntries6).2.map (fun r => r.step3) = List.replicate 6 none) ∧
    ((translateWithMultimodel ⟨true, false, true, false, false, false⟩ c8Oracles
        sampleEntries6).2.map (fun r => r.step4) = List.replicate 6 none) ∧
    (some (StepRes.skip (some "disabled")) : Option StepRes) ≠ none := by decide

theorem empty_append_str (s : String) : "" ++ s = s := rfl

theorem serializeProgress_ne_empty (st : ProgressState) : serializeProgress st ≠ "" := by
  intro hc
  have hne : (serializeProgress st).data ≠ [] := by
    unfold serializeProgress
    simp [data_append, data_mk]
  apply hne
  rw [hc]

/-- C2 counterexample: `save_progress` truncates the progress file in place
before writing; crashing between the truncating open and the write leaves an
empty progress file — the previously valid state is destroyed, the file still
exists (`has_existing_progress()` stays true), and the subsequent load fails
rather than returning the last fully-written state. -/
theorem c2_counterexample :
    truncatedFS ∈ crashStates (saveProgressOps newProgress) preSaveFS ∧
    loadProgressModel "in.srt" "out.srt" truncatedFS.target = none ∧
    truncatedFS.target ≠ none ∧
    truncatedFS.target ≠ some (serializeProgress oldProgress) := by decide

/-- C2 as amended: `save_progress` performs a truncating open of the target
followed by a direct write — no temporary file, no rename. Consequently some
crash point leaves the target holding neither the previous content nor the
new serialization (and `load_progress` then reports failure rather than the
last fully-written state), whereas under the spec's write-temp-then-rename
scheme every crash point leaves the target holding either the old content or
the complete new serialization. -/
theorem c2_direct_write_not_atomic (st : ProgressState) (fs0 : FS) (inp out : String)
    (hold : fs0.target ≠ some "") :
    saveProgressOps st =
      [FileOp.truncateTarget, FileOp.writeTarget (serializeProgress st)] ∧
    (∃ fs' ∈ crashStates (saveProgressOps st) fs0,
        fs'.target ≠ fs0.target ∧ fs'.target ≠ some (serializeProgress st) ∧
        loadProgressModel inp out fs'.target = none) ∧
    (∀ fs' ∈ crashStates (specAtomicSaveOps st) fs0,
        fs'.target = fs0.target ∨ fs'.target = some (serializeProgress st)) := by
  refine ⟨rfl, ?_, ?_⟩
  · refine ⟨⟨some "", fs0.temp⟩, ?_, ?_, ?_, rfl⟩
    · show _ ∈ crashStates (saveProgressOps st) fs0
      unfold saveProgressOps crashStates midWriteStates
      exact List.mem_cons_of_mem _ (by simp [crashStates, applyOp])
    · intro h
      exact hold h.symm
    · intro h
      exact serializeProgress_ne_empty st (Option.some.inj h).symm
  · intro fs' hmem
    simp only [specAtomicSaveOps, crashStates, midWriteStates, applyOp, List.mem_cons,
      List.mem_append, List.mem_map, List.mem_range, List.nil_append, List.not_mem_nil,
      or_false, false_or] at hmem
    rcases hmem with h | (h | ⟨n, -, h⟩) | h | h
    · subst h
      exact Or.inl rfl
    · subst h
      exact Or.inl rfl
    · rw [← h]
      exact Or.inl rfl
    · subst h
      exact Or.inl rfl
    · subst h
      right
      show (some ((some "").getD "" ++ serializeProgress st) : Option String) = _
      rw [show ((some "").getD "" : String) = "" from rfl, empty_append_str]

/-- Witness for the amended C2 theorem at the concrete crash scenario. -/
theorem c2_direct_write_not_atomic_witness :
    ∃ fs' ∈ crashStates (saveProgressOps newProgress) preSaveFS,
      fs'.target ≠ preSaveFS.target ∧
      fs'.target ≠ some (serializeProgress newProgress) ∧
      loadProgressModel "in.srt" "out.srt" fs'.target = none :=
  (c2_direct_write_not_atomic newProgress preSaveFS "in.srt" "out.srt" (by decide)).2.1

end SubAssist
